import Mathlib

/-!
# Verification of xpra networking components

Shallow embedding of `xpra/net/websockets/header.py` (HyBi WebSocket frame
header encoding and decoding) and `xpra/net/subprocess_wrapper.py` (the
subprocess caller/callee packet bridge), with theorems settling the spec
claims about them.

Bytes are modelled as `Nat` (each in `0..255` where it matters); byte
strings as `List Nat` with index 0 first on the wire.
-/

namespace Xpra

/-! ## Definitions: WebSocket HyBi header (`xpra/net/websockets/header.py`) -/

/-- Big-endian unsigned integer from a byte list, as `struct.unpack` of
`>H` / `>Q` reads it: most significant byte first. -/
def unpack_be (bytes : List Nat) : Nat :=
  bytes.foldl (fun acc b => acc * 256 + b) 0

/-- `encode_hybi_header(opcode, payload_len, has_mask, fin)`.
Returns `none` where the Python raises `ValueError` (opcode with bits
outside the low 4).  The three length classes produce exactly the bytes
`struct.pack` produces: `>BB`, `>BBH`, `>BBQ`, with the big-endian
length bytes written out explicitly.  Faithful for `payload_len < 2^64`
(the domain of `>Q`). -/
def encode_hybi_header (opcode payload_len : Nat) (has_mask fin : Bool) :
    Option (List Nat) :=
  if opcode &&& 0x0f ≠ opcode then none
  else
    let mask_bit := if has_mask then 0x80 else 0
    let b1 := opcode ||| (if fin then 0x80 else 0)
    if payload_len ≤ 125 then
      some [b1, payload_len ||| mask_bit]
    else if payload_len < 65536 then
      some [b1, 126 ||| mask_bit, payload_len / 256 % 256, payload_len % 256]
    else
      some [b1, 127 ||| mask_bit,
            payload_len / 256 ^ 7 % 256, payload_len / 256 ^ 6 % 256,
            payload_len / 256 ^ 5 % 256, payload_len / 256 ^ 4 % 256,
            payload_len / 256 ^ 3 % 256, payload_len / 256 ^ 2 % 256,
            payload_len / 256 % 256, payload_len % 256]

/-- Cyclic XOR of a byte list against a 4-byte key, starting at index `i`:
byte `j` of the data is XORed with `key[(i+j) % 4]`. -/
def cyclic_xor (key : List Nat) : Nat → List Nat → List Nat
  | _, [] => []
  | i, b :: rest => (b ^^^ key.getD (i % 4) 0) :: cyclic_xor key (i + 1) rest

/-- Modelled from the spec: `hybi_unmask(buf, offset, length)` from
`xpra/net/websockets/mask.py` (not under `src/`): reads the 4-byte mask
key at `buf[offset:offset+4]` and returns the `length` bytes at
`buf[offset+4:offset+4+length]` XORed cyclically with the key. -/
def hybi_unmask (buf : List Nat) (offset length : Nat) : List Nat :=
  cyclic_xor ((buf.drop offset).take 4) 0 ((buf.drop (offset + 4)).take length)

/-- The tail of `decode_hybi` once `hlen` and `payload_len` are known:
checks the buffer holds the whole frame, then extracts the payload
(unmasking if the mask bit was set) and returns
`(opcode, payload, hlen + payload_len, fin)`. -/
def decode_finish (buf : List Nat) (hlen payload_len opcode : Nat)
    (fin masked : Bool) : Option (Nat × List Nat × Nat × Bool) :=
  if buf.length < hlen + payload_len then none
  else if masked then
    some (opcode, hybi_unmask buf (hlen - 4) payload_len, hlen + payload_len, fin)
  else
    some (opcode, (buf.drop hlen).take payload_len, hlen + payload_len, fin)

/-- `decode_hybi(buf)`: returns `none` (incomplete) whenever any of the
Python's `blen < hlen` / `blen < length` checks fires, otherwise
`some (opcode, payload, consumed_length, fin)`.  The first two match arms
are the `blen < 2` check; `rest.take 2` / `rest.take 8` are `buf[2:4]` /
`buf[2:10]`.  The Python function contains no `raise`: it is total. -/
def decode_hybi : List Nat → Option (Nat × List Nat × Nat × Bool)
  | [] => none
  | [_] => none
  | b1 :: b2 :: rest =>
    let buf := b1 :: b2 :: rest
    let opcode := b1 &&& 0x0f
    let fin : Bool := decide (b1 &&& 0x80 ≠ 0)
    let masked : Bool := decide (b2 &&& 0x80 ≠ 0)
    let hlen := if masked then 6 else 2
    if buf.length < hlen then none
    else
      let pl := b2 &&& 0x7f
      if pl = 126 then
        if buf.length < hlen + 2 then none
        else decode_finish buf (hlen + 2) (unpack_be (rest.take 2)) opcode fin masked
      else if pl = 127 then
        if buf.length < hlen + 8 then none
        else decode_finish buf (hlen + 8) (unpack_be (rest.take 8)) opcode fin masked
      else decode_finish buf hlen pl opcode fin masked

/-- Header size of each payload-length class, as produced by
`encode_hybi_header` and consumed by `decode_hybi` (mask key excluded). -/
def hsizeOf (payload_len : Nat) : Nat :=
  if payload_len ≤ 125 then 2 else if payload_len < 65536 then 4 else 10

/-- Modelled from the spec: the encoder side of a masked frame (the
caller of `encode_hybi_header`, not under `src/`): "a 4-byte mask key
precedes the payload and the payload is XORed cyclically with the 4-byte
key before appending". -/
def encode_hybi_frame_masked (opcode : Nat) (payload key : List Nat)
    (fin : Bool) : Option (List Nat) :=
  (encode_hybi_header opcode payload.length true fin).map
    (fun hdr => hdr ++ key ++ cyclic_xor key 0 payload)

/-! ## Definitions: subprocess wrapper (`xpra/net/subprocess_wrapper.py`) -/

/-- Modelled from the spec: the packet-type constant `CONNECTION_LOST` from
`xpra/net/protocol/constants.py` (not under `src/`); the spec names the
reserved tag `connection-lost`. -/
def CONNECTION_LOST : String := "connection-lost"

/-- Modelled from the spec: the packet-type constant `GIBBERISH` from
`xpra/net/protocol/constants.py` (not under `src/`); the spec names the
reserved tag `gibberish`. -/
def GIBBERISH : String := "gibberish"

/-- `command.replace("-", "_")`: hyphen-to-underscore translation of the
packet tag (a single-character replacement, hence a character map). -/
def replace_dash (s : String) : String :=
  String.mk (s.data.map (fun c => if c = '-' then '_' else c))

/-- Outcome of `SubprocessCallee.process_packet` on one packet.
`invokeLater` stands for `GLib.idle_add(method, *packet[1:])`: the method is
scheduled for asynchronous invocation on the main loop, not called inline;
the `drop*` outcomes all just log and return (non-fatal). -/
inductive CalleeAction (α : Type) where
  | netStop
  | exitProcess
  | dropNotWhitelisted (attr : String)
  | dropNoObject (attr : String)
  | dropNoMethod (attr : String)
  | invokeLater (attr : String) (args : List α)
  deriving DecidableEq

/-- The tail of `process_packet` after the whitelist check: `wo = self.wrapped_object;
if not wo: return` then `method = getattr(wo, attr, None); if not method: return`
then `GLib.idle_add(method, *packet[1:])`.  `has_obj` is the truthiness of
`self.wrapped_object`; `methods attr` is the truthiness of `getattr(wo, attr, None)`. -/
def process_packet_tail {α : Type} (has_obj : Bool) (methods : String → Bool)
    (attr : String) (rest : List α) : CalleeAction α :=
  if !has_obj then .dropNoObject attr
  else if !(methods attr) then .dropNoMethod attr
  else .invokeLater attr rest

/-- `SubprocessCallee.process_packet(proto, packet)`: `command = packet.get_str(0)`,
special-cased tags first, then `attr = command.replace("-", "_")`, then the
whitelist check `if self.method_whitelist is not None and attr not in
self.method_whitelist: return`, then the wrapped-object dispatch. -/
def process_packet {α : Type} (method_whitelist : Option (List String))
    (has_obj : Bool) (methods : String → Bool)
    (command : String) (rest : List α) : CalleeAction α :=
  if command = CONNECTION_LOST then .netStop
  else if command = GIBBERISH then .netStop
  else if command = "stop" then .netStop
  else if command = "exit" then .exitProcess
  else
    let attr := replace_dash command
    match method_whitelist with
    | some wl =>
      if attr ∈ wl then process_packet_tail has_obj methods attr rest
      else .dropNotWhitelisted attr
    | none => process_packet_tail has_obj methods attr rest

/-- Which deferred call a `GLib.timeout_add` registered. -/
inductive ScheduledCall where
  | cleanupCall
  | stopCall
  deriving DecidableEq

/-- Observable effects of the callee's OS-signal handlers: enqueue a
`("signal", signame)` packet via `self.send`, `GLib.timeout_add(delay_ms, f)`,
or a direct (immediate) call of `self.stop()`. -/
inductive SigEffect where
  | sendSignalPacket (signame : String)
  | timeoutAdd (delay_ms : Nat) (call : ScheduledCall)
  | callStopNow
  deriving DecidableEq

/-- Which handler `register_os_signals` currently has installed:
`handle_signal` initially, `signal_stop` after the first signal. -/
inductive SigHandlerState where
  | firstHandler
  | stopping
  deriving DecidableEq

/-- `SubprocessCallee.handle_signal(sig)`: re-registers `signal_stop` as the
handler, sends `("signal", SIGNAMES.get(sig, sig))`, schedules `cleanup` with
`timeout_add(0, ...)` and `stop` with `timeout_add(150, ...)`.  `signames`
models the `SIGNAMES` dict; its `.get(sig, sig)` default is the signal
number itself, rendered as a string here. -/
def handle_signal (signames : Nat → Option String) (sig : Nat) :
    List SigEffect × SigHandlerState :=
  ([SigEffect.sendSignalPacket ((signames sig).getD (toString sig)),
    SigEffect.timeoutAdd 0 ScheduledCall.cleanupCall,
    SigEffect.timeoutAdd 150 ScheduledCall.stopCall],
   SigHandlerState.stopping)

/-- `SubprocessCallee.signal_stop(sig)`: calls `self.stop()` at once, no delay. -/
def signal_stop : List SigEffect × SigHandlerState :=
  ([SigEffect.callStopNow], SigHandlerState.stopping)

/-- One OS termination signal delivered to whichever handler is installed. -/
def os_signal_step (signames : Nat → Option String) :
    SigHandlerState → Nat → List SigEffect × SigHandlerState
  | SigHandlerState.firstHandler, sig => handle_signal signames sig
  | SigHandlerState.stopping, _ => signal_stop

/-- `SubprocessCaller.abort_test(action)`: raises `ConnectionClosedException`
iff `p is None or p.poll()` is truthy.  `process = none` models `self.process
is None`; `some none` a running process (`poll()` returns `None`); `some
(some code)` an exited process with exit status `code`, whose Python
truthiness is `code != 0`.  Returns `true` iff the exception is raised. -/
def abort_test (process : Option (Option Int)) : Bool :=
  match process with
  | none => true
  | some none => false
  | some (some exitcode) => exitcode != 0

/-- Modelled from the spec: the wiring of `SubprocessCaller.send` to the
liveness check.  `send` enqueues the packet and wakes the protocol, whose
`TwoFileConnection` (in `xpra/net/bytestreams.py`, not under `src/`) runs
`abort_test` when it writes; per the spec, a send after the subprocess has
exited "fails with a ConnectionClosed condition rather than silently queuing
forever".  The model performs the liveness check of `abort_test` and either
fails or enqueues. -/
def caller_send {α : Type} (process : Option (Option Int)) (send_queue : List α)
    (packet : α) : Except String (List α) :=
  if abort_test process then Except.error "cannot write: subprocess has terminated"
  else Except.ok (send_queue ++ [packet])

/-- The two call sites of `INJECT_FAULT` in `subprocess_wrapper.py`: every
`send()` and every `process_packet()` (both the callee's and the caller's)
invoke it once, sharing the single module-level `_counter`. -/
inductive WrapperEvent where
  | sendPacket
  | processPacket
  deriving DecidableEq

/-- `do_inject_fault(p)`: increments the module-level `_counter` and fires
(`p.raw_write` of junk bytes, bypassing the codec) iff the new counter is a
multiple of `FAULT_RATE`.  Returns the new counter and whether it fired. -/
def do_inject_fault (fault_rate counter : Nat) : Nat × Bool :=
  (counter + 1, decide ((counter + 1) % fault_rate = 0))

/-- `INJECT_FAULT`: `noop` unless `FAULT_RATE > 0` (an unset or zero
`XPRA_WRAPPER_FAULT_INJECTION_RATE` leaves the module-level binding as
`noop`), else `do_inject_fault`. -/
def INJECT_FAULT (fault_rate counter : Nat) : Nat × Bool :=
  if 0 < fault_rate then do_inject_fault fault_rate counter else (counter, false)

/-- Run `INJECT_FAULT` over a sequence of call sites, threading the counter;
returns, per call, whether the corruption fired. -/
def inject_run (fault_rate : Nat) : Nat → List WrapperEvent → List Bool
  | _, [] => []
  | counter, _ :: events =>
    (INJECT_FAULT fault_rate counter).2 ::
      inject_run fault_rate (INJECT_FAULT fault_rate counter).1 events

/-- `get_packet` shared by `SubprocessCallee` and `SubprocessCaller` (their
bodies are identical): a non-blocking `self.send_queue.get(False)`; on
`Empty` it returns `(None, False, False)`, else the oldest item, `False` for
the start-new-frame flag, and `qsize() > 0` after removal for the have-more
flag.  The FIFO queue is a list with the oldest item first. -/
def get_packet {α : Type} (send_queue : List α) : (Option α × Bool × Bool) × List α :=
  match send_queue with
  | [] => ((none, false, false), [])
  | item :: rest => ((some item, false, decide (0 < rest.length)), rest)


/-! ## Theorems -/

lemma b1_and15 {op : Nat} (h : op < 16) (f : Bool) :
    (op ||| (if f then 128 else 0)) &&& 15 = op := by
  cases f <;> simp <;> interval_cases op <;> decide

lemma b1_fin {op : Nat} (h : op < 16) (f : Bool) :
    decide ((op ||| (if f then 128 else 0)) &&& 128 ≠ 0) = f := by
  cases f <;> simp <;> interval_cases op <;> decide

lemma b2_low {a : Nat} (h : a ≤ 127) (m : Bool) :
    (a ||| (if m then 128 else 0)) &&& 127 = a := by
  cases m <;> simp <;> interval_cases a <;> decide

lemma b2_mask {a : Nat} (h : a ≤ 127) (m : Bool) :
    decide ((a ||| (if m then 128 else 0)) &&& 128 ≠ 0) = m := by
  cases m <;> simp <;> interval_cases a <;> decide

lemma roundtrip_small (opcode : Nat) (fin : Bool) (payload : List Nat)
    (hop : opcode < 16) (h125 : payload.length ≤ 125) :
    decode_hybi ((opcode ||| (if fin then 128 else 0)) :: payload.length :: payload) =
      some (opcode, payload, payload.length + 2, fin) := by
  have hm : decide (payload.length &&& 128 ≠ 0) = false := by
    have := b2_mask (a := payload.length) (by omega) false
    simpa using this
  have hlow : payload.length &&& 127 = payload.length := by
    have := b2_low (a := payload.length) (by omega) false
    simpa using this
  simp only [decode_hybi, decode_finish, hm, b1_and15 hop, b1_fin hop, hlow,
    if_false, Bool.false_eq_true]
  rw [if_neg (by simp), if_neg (by omega), if_neg (by omega), if_neg (by simp; omega)]
  simp [List.take_length, Nat.add_comm]
lemma roundtrip_med (opcode : Nat) (fin : Bool) (payload : List Nat)
    (hop : opcode < 16) (hlo : 125 < payload.length) (hhi : payload.length < 65536) :
    decode_hybi ((opcode ||| (if fin then 128 else 0)) :: 126 ::
        (payload.length / 256 % 256) :: (payload.length % 256) :: payload) =
      some (opcode, payload, payload.length + 4, fin) := by
  have hm : decide ((126 : Nat) &&& 128 ≠ 0) = false := by decide
  have hlow : (126 : Nat) &&& 127 = 126 := by decide
  have hup : unpack_be [payload.length / 256 % 256, payload.length % 256] = payload.length := by
    simp [unpack_be]
    omega
  simp only [decode_hybi, decode_finish, hm, b1_and15 hop, b1_fin hop, hlow,
    if_false, Bool.false_eq_true, List.take_succ_cons, List.take_zero, hup]
  rw [if_pos trivial, if_neg (by simp only [List.length_cons]; omega),
    if_neg (by simp only [List.length_cons]; omega)]
  simp [List.take_length, Nat.add_comm]
  omega
lemma roundtrip_big (opcode : Nat) (fin : Bool) (payload : List Nat)
    (hop : opcode < 16) (hlo : 65535 < payload.length) (hhi : payload.length < 2 ^ 64) :
    decode_hybi ((opcode ||| (if fin then 128 else 0)) :: 127 ::
        (payload.length / 256 ^ 7 % 256) :: (payload.length / 256 ^ 6 % 256) ::
        (payload.length / 256 ^ 5 % 256) :: (payload.length / 256 ^ 4 % 256) ::
        (payload.length / 256 ^ 3 % 256) :: (payload.length / 256 ^ 2 % 256) ::
        (payload.length / 256 % 256) :: (payload.length % 256) :: payload) =
      some (opcode, payload, payload.length + 10, fin) := by
  have hm : decide ((127 : Nat) &&& 128 ≠ 0) = false := by decide
  have hlow : (127 : Nat) &&& 127 = 127 := by decide
  have hup : unpack_be [payload.length / 256 ^ 7 % 256, payload.length / 256 ^ 6 % 256,
      payload.length / 256 ^ 5 % 256, payload.length / 256 ^ 4 % 256,
      payload.length / 256 ^ 3 % 256, payload.length / 256 ^ 2 % 256,
      payload.length / 256 % 256, payload.length % 256] = payload.length := by
    simp [unpack_be]
    omega
  simp only [decode_hybi, decode_finish, hm, b1_and15 hop, b1_fin hop, hlow,
    if_false, Bool.false_eq_true, List.take_succ_cons, List.take_zero, hup]
  rw [if_neg (by simp only [List.length_cons]; omega), if_neg (by omega), if_pos trivial,
    if_neg (by simp only [List.length_cons]; omega),
    if_neg (by simp only [List.length_cons]; omega)]
  simp [List.take_length, Nat.add_comm]

/-- C1: unmasked encode/decode round-trip.  For every opcode in `0..15`,
fin flag, and payload of any length below `2^64` (covering the claim's
lengths 0, 1, 125, 126, 65535, 65536, 200000), decoding the bytes of
`encode_hybi_header(opcode, L, has_mask=false, fin)` followed by the payload
returns the original opcode, payload and fin flag, and reports a consumed
length of exactly `L` plus 2 header bytes when `L ≤ 125`, plus 4 when
`126 ≤ L ≤ 65535`, and plus 10 when `L ≥ 65536`. -/
theorem C1_hybi_roundtrip (opcode : Nat) (fin : Bool) (payload : List Nat)
    (hop : opcode < 16) (hL : payload.length < 2 ^ 64) :
    ∃ hdr, encode_hybi_header opcode payload.length false fin = some hdr ∧
      hdr.length = hsizeOf payload.length ∧
      decode_hybi (hdr ++ payload) =
        some (opcode, payload, payload.length + hsizeOf payload.length, fin) ∧
      (payload.length ≤ 125 → hsizeOf payload.length = 2) ∧
      (126 ≤ payload.length → payload.length ≤ 65535 → hsizeOf payload.length = 4) ∧
      (65536 ≤ payload.length → hsizeOf payload.length = 10) := by
  have h15 : ¬ (opcode &&& 0x0f ≠ opcode) := by
    have := b1_and15 hop false
    simp at this
    simp [this]
  by_cases h1 : payload.length ≤ 125
  · have hs : hsizeOf payload.length = 2 := by simp [hsizeOf, h1]
    refine ⟨[opcode ||| (if fin then 128 else 0), payload.length], ?_, ?_, ?_, ?_, ?_, ?_⟩
    · simp [encode_hybi_header, h15, h1]
    · simp [hs]
    · simpa [hs] using roundtrip_small opcode fin payload hop h1
    · simp [hs]
    · omega
    · omega
  · by_cases h2 : payload.length < 65536
    · have hs : hsizeOf payload.length = 4 := by simp [hsizeOf, h1, h2]
      refine ⟨[opcode ||| (if fin then 128 else 0), 126,
        payload.length / 256 % 256, payload.length % 256], ?_, ?_, ?_, ?_, ?_, ?_⟩
      · simp [encode_hybi_header, h15, h1, h2]
      · simp [hs]
      · simpa [hs] using roundtrip_med opcode fin payload hop (by omega) h2
      · omega
      · simp [hs]
      · omega
    · have hs : hsizeOf payload.length = 10 := by simp [hsizeOf, h1, h2]
      refine ⟨[opcode ||| (if fin then 128 else 0), 127,
        payload.length / 256 ^ 7 % 256, payload.length / 256 ^ 6 % 256,
        payload.length / 256 ^ 5 % 256, payload.length / 256 ^ 4 % 256,
        payload.length / 256 ^ 3 % 256, payload.length / 256 ^ 2 % 256,
        payload.length / 256 % 256, payload.length % 256], ?_, ?_, ?_, ?_, ?_, ?_⟩
      · simp [encode_hybi_header, h15, h1, h2]
      · simp [hs]
      · simpa [hs] using roundtrip_big opcode fin payload hop (by omega) hL
      · omega
      · omega
      · simp [hs]

theorem C1_hybi_roundtrip_witness :
    (1 : Nat) < 16 ∧ ([65] : List Nat).length < 2 ^ 64 ∧
    ∃ hdr, encode_hybi_header 1 ([65] : List Nat).length false true = some hdr ∧
      hdr.length = hsizeOf ([65] : List Nat).length ∧
      decode_hybi (hdr ++ [65]) =
        some (1, [65], ([65] : List Nat).length + hsizeOf ([65] : List Nat).length, true) ∧
      (([65] : List Nat).length ≤ 125 → hsizeOf ([65] : List Nat).length = 2) ∧
      (126 ≤ ([65] : List Nat).length → ([65] : List Nat).length ≤ 65535 →
        hsizeOf ([65] : List Nat).length = 4) ∧
      (65536 ≤ ([65] : List Nat).length → hsizeOf ([65] : List Nat).length = 10) :=
  ⟨by decide, by decide, C1_hybi_roundtrip 1 true [65] (by decide) (by decide)⟩

lemma decode_finish_some {buf : List Nat} {hlen pl op : Nat} {fin masked : Bool}
    {r : Nat × List Nat × Nat × Bool}
    (h : decode_finish buf hlen pl op fin masked = some r) :
    r.2.2.1 = hlen + pl ∧ hlen + pl ≤ buf.length := by
  unfold decode_finish at h
  split_ifs at h with h1 h2 <;> cases h <;> simp <;> omega

lemma decode_finish_short {buf : List Nat} {hlen pl op : Nat} {fin masked : Bool}
    (h : buf.length < hlen + pl) : decode_finish buf hlen pl op fin masked = none := by
  unfold decode_finish
  rw [if_pos h]

lemma decode_hybi_truncation (b1 b2 : Nat) (rest : List Nat) (r : Nat × List Nat × Nat × Bool)
    (hsome : decode_hybi (b1 :: b2 :: rest) = some r) :
    ∀ n, n < r.2.2.1 → decode_hybi ((b1 :: b2 :: rest).take n) = none := by
  intro n hn
  match n with
  | 0 => rfl
  | 1 => rfl
  | (m + 2) =>
    simp only [List.take_succ_cons]
    simp only [decode_hybi, List.length_cons] at hsome ⊢
    cases hdm : decide (b2 &&& 128 ≠ 0) <;> simp only [hdm] at hsome ⊢
    case false =>
      by_cases h126 : b2 &&& 127 = 126
      · simp only [h126, Bool.false_eq_true, if_false, reduceIte] at hsome ⊢
        rw [if_neg (by omega)] at hsome
        by_cases hB : rest.length + 1 + 1 < 2 + 2
        · rw [if_pos hB] at hsome; cases hsome
        · rw [if_neg hB] at hsome
          obtain ⟨hr, hle⟩ := decode_finish_some hsome
          simp only [List.length_cons] at hle
          by_cases g1 : (List.take m rest).length + 1 + 1 < 2
          · rw [if_pos g1]
          · rw [if_neg g1]
            by_cases g2 : (List.take m rest).length + 1 + 1 < 2 + 2
            · rw [if_pos g2]
            · rw [if_neg g2]
              have hm2 : 2 ≤ m := by simp only [List.length_take] at g2; omega
              rw [List.take_take, min_eq_left hm2]
              unfold decode_finish
              rw [if_pos (by simp only [List.length_cons, List.length_take]; omega)]
      · by_cases h127 : b2 &&& 127 = 127
        · rw [if_neg h126] at hsome ⊢
          simp only [h127, Bool.false_eq_true, if_false, if_true, reduceIte] at hsome ⊢
          rw [if_neg (by omega)] at hsome
          by_cases hB : rest.length + 1 + 1 < 2 + 8
          · rw [if_pos hB] at hsome; cases hsome
          · rw [if_neg hB] at hsome
            obtain ⟨hr, hle⟩ := decode_finish_some hsome
            simp only [List.length_cons] at hle
            by_cases g1 : (List.take m rest).length + 1 + 1 < 2
            · rw [if_pos g1]
            · rw [if_neg g1]
              by_cases g2 : (List.take m rest).length + 1 + 1 < 2 + 8
              · rw [if_pos g2]
              · rw [if_neg g2]
                have hm8 : 8 ≤ m := by simp only [List.length_take] at g2; omega
                rw [List.take_take, min_eq_left hm8]
                exact decode_finish_short (by simp only [List.length_cons, List.length_take]; omega)
        · rw [if_neg h126, if_neg h127] at hsome ⊢
          simp only [Bool.false_eq_true, if_false, reduceIte] at hsome ⊢
          rw [if_neg (by omega)] at hsome
          obtain ⟨hr, hle⟩ := decode_finish_some hsome
          simp only [List.length_cons] at hle
          by_cases g1 : (List.take m rest).length + 1 + 1 < 2
          · rw [if_pos g1]
          · rw [if_neg g1]
            exact decode_finish_short (by simp only [List.length_cons, List.length_take]; omega)
    case true =>
      by_cases h126 : b2 &&& 127 = 126
      · simp only [h126, if_true, reduceIte] at hsome ⊢
        by_cases hA : rest.length + 1 + 1 < 6
        · rw [if_pos hA] at hsome; cases hsome
        · rw [if_neg hA] at hsome
          by_cases hB : rest.length + 1 + 1 < 6 + 2
          · rw [if_pos hB] at hsome; cases hsome
          · rw [if_neg hB] at hsome
            obtain ⟨hr, hle⟩ := decode_finish_some hsome
            simp only [List.length_cons] at hle
            by_cases g1 : (List.take m rest).length + 1 + 1 < 6
            · rw [if_pos g1]
            · rw [if_neg g1]
              by_cases g2 : (List.take m rest).length + 1 + 1 < 6 + 2
              · rw [if_pos g2]
              · rw [if_neg g2]
                have hm2 : 2 ≤ m := by simp only [List.length_take] at g2; omega
                rw [List.take_take, min_eq_left hm2]
                exact decode_finish_short (by simp only [List.length_cons, List.length_take]; omega)
      · by_cases h127 : b2 &&& 127 = 127
        · rw [if_neg h126] at hsome ⊢
          simp only [h127, if_true, reduceIte] at hsome ⊢
          by_cases hA : rest.length + 1 + 1 < 6
          · rw [if_pos hA] at hsome; cases hsome
          · rw [if_neg hA] at hsome
            by_cases hB : rest.length + 1 + 1 < 6 + 8
            · rw [if_pos hB] at hsome; cases hsome
            · rw [if_neg hB] at hsome
              obtain ⟨hr, hle⟩ := decode_finish_some hsome
              simp only [List.length_cons] at hle
              by_cases g1 : (List.take m rest).length + 1 + 1 < 6
              · rw [if_pos g1]
              · rw [if_neg g1]
                by_cases g2 : (List.take m rest).length + 1 + 1 < 6 + 8
                · rw [if_pos g2]
                · rw [if_neg g2]
                  have hm8 : 8 ≤ m := by simp only [List.length_take] at g2; omega
                  rw [List.take_take, min_eq_left hm8]
                  exact decode_finish_short (by simp only [List.length_cons, List.length_take]; omega)
        · rw [if_neg h126, if_neg h127] at hsome ⊢
          simp only [if_true, reduceIte] at hsome ⊢
          by_cases hA : rest.length + 1 + 1 < 6
          · rw [if_pos hA] at hsome; cases hsome
          · rw [if_neg hA] at hsome
            obtain ⟨hr, hle⟩ := decode_finish_some hsome
            simp only [List.length_cons] at hle
            by_cases g1 : (List.take m rest).length + 1 + 1 < 6
            · rw [if_pos g1]
            · rw [if_neg g1]
              exact decode_finish_short (by simp only [List.length_cons, List.length_take]; omega)

lemma decode_hybi_consumed (b1 b2 : Nat) (rest : List Nat) (r : Nat × List Nat × Nat × Bool)
    (hsome : decode_hybi (b1 :: b2 :: rest) = some r) : r.2.2.1 ≤ rest.length + 2 := by
  simp only [decode_hybi, List.length_cons] at hsome
  cases hdm : decide (b2 &&& 128 ≠ 0) <;> simp only [hdm] at hsome
  case false =>
    by_cases h126 : b2 &&& 127 = 126
    · simp only [h126, Bool.false_eq_true, if_false, reduceIte] at hsome
      rw [if_neg (by omega)] at hsome
      by_cases hB : rest.length + 1 + 1 < 2 + 2
      · rw [if_pos hB] at hsome; cases hsome
      · rw [if_neg hB] at hsome
        obtain ⟨hr, hle⟩ := decode_finish_some hsome
        simp only [List.length_cons] at hle
        omega
    · by_cases h127 : b2 &&& 127 = 127
      · rw [if_neg h126] at hsome
        simp only [h127, Bool.false_eq_true, if_false, if_true, reduceIte] at hsome
        rw [if_neg (by omega)] at hsome
        by_cases hB : rest.length + 1 + 1 < 2 + 8
        · rw [if_pos hB] at hsome; cases hsome
        · rw [if_neg hB] at hsome
          obtain ⟨hr, hle⟩ := decode_finish_some hsome
          simp only [List.length_cons] at hle
          omega
      · rw [if_neg h126, if_neg h127] at hsome
        simp only [Bool.false_eq_true, if_false, reduceIte] at hsome
        rw [if_neg (by omega)] at hsome
        obtain ⟨hr, hle⟩ := decode_finish_some hsome
        simp only [List.length_cons] at hle
        omega
  case true =>
    by_cases h126 : b2 &&& 127 = 126
    · simp only [h126, if_true, reduceIte] at hsome
      by_cases hA : rest.length + 1 + 1 < 6
      · rw [if_pos hA] at hsome; cases hsome
      · rw [if_neg hA] at hsome
        by_cases hB : rest.length + 1 + 1 < 6 + 2
        · rw [if_pos hB] at hsome; cases hsome
        · rw [if_neg hB] at hsome
          obtain ⟨hr, hle⟩ := decode_finish_some hsome
          simp only [List.length_cons] at hle
          omega
    · by_cases h127 : b2 &&& 127 = 127
      · rw [if_neg h126] at hsome
        simp only [h127, if_true, reduceIte] at hsome
        by_cases hA : rest.length + 1 + 1 < 6
        · rw [if_pos hA] at hsome; cases hsome
        · rw [if_neg hA] at hsome
          by_cases hB : rest.length + 1 + 1 < 6 + 8
          · rw [if_pos hB] at hsome; cases hsome
          · rw [if_neg hB] at hsome
            obtain ⟨hr, hle⟩ := decode_finish_some hsome
            simp only [List.length_cons] at hle
            omega
      · rw [if_neg h126, if_neg h127] at hsome
        simp only [if_true, reduceIte] at hsome
        by_cases hA : rest.length + 1 + 1 < 6
        · rw [if_pos hA] at hsome; cases hsome
        · rw [if_neg hA] at hsome
          obtain ⟨hr, hle⟩ := decode_finish_some hsome
          simp only [List.length_cons] at hle
          omega

/-- C2: decode_hybi never errors on incomplete input.  A buffer of fewer
than 2 bytes decodes to `none`; a successful decode consumes no more bytes
than the buffer holds (so any buffer shorter than what the declared
length-class, mask field and payload length require yields `none`); and
every strict truncation of a decodable frame, at any byte boundary, decodes
to `none`.  The source of `decode_hybi` contains no `raise` statement at all
(the embedding is a total function into `Option`), so it never raises on
incomplete input, vacuously raising only on invalid opcodes. -/
theorem C2_decode_incomplete :
    (∀ buf : List Nat, buf.length < 2 → decode_hybi buf = none) ∧
    (∀ (buf : List Nat) (r : Nat × List Nat × Nat × Bool), decode_hybi buf = some r →
      r.2.2.1 ≤ buf.length ∧
      ∀ n, n < r.2.2.1 → decode_hybi (buf.take n) = none) := by
  constructor
  · intro buf h
    rcases buf with _ | ⟨a, _ | ⟨b, rest⟩⟩
    · rfl
    · rfl
    · simp only [List.length_cons] at h
      omega
  · intro buf r hsome
    rcases buf with _ | ⟨a, _ | ⟨b, rest⟩⟩
    · simp [decode_hybi] at hsome
    · simp [decode_hybi] at hsome
    · exact ⟨by simpa using decode_hybi_consumed a b rest r hsome,
        decode_hybi_truncation a b rest r hsome⟩

theorem C2_decode_incomplete_witness :
    decode_hybi [129] = none ∧
    ((3 : Nat) ≤ ([129, 1, 65] : List Nat).length ∧
      decode_hybi (List.take 2 [129, 1, 65]) = none) :=
  ⟨C2_decode_incomplete.1 [129] (by decide),
   (C2_decode_incomplete.2 [129, 1, 65] (1, [65], 3, true) (by decide)).1,
   (C2_decode_incomplete.2 [129, 1, 65] (1, [65], 3, true) (by decide)).2 2 (by decide)⟩

lemma cyclic_xor_length (key : List Nat) (i : Nat) (l : List Nat) :
    (cyclic_xor key i l).length = l.length := by
  induction l generalizing i with
  | nil => rfl
  | cons b rest ih => simp [cyclic_xor, ih]

lemma cyclic_xor_involutive (key : List Nat) (i : Nat) (l : List Nat) :
    cyclic_xor key i (cyclic_xor key i l) = l := by
  induction l generalizing i with
  | nil => rfl
  | cons b rest ih => simp [cyclic_xor, Nat.xor_cancel_right, ih]

lemma masked_small (opcode : Nat) (fin : Bool) (payload : List Nat) (k0 k1 k2 k3 : Nat)
    (hop : opcode < 16) (h125 : payload.length ≤ 125) :
    decode_hybi ((opcode ||| (if fin then 128 else 0)) :: (payload.length ||| 128) ::
      k0 :: k1 :: k2 :: k3 :: cyclic_xor [k0, k1, k2, k3] 0 payload) =
      some (opcode, payload, payload.length + 6, fin) := by
  have hm : decide ((payload.length ||| 128) &&& 128 ≠ 0) = true := by
    simpa using b2_mask (a := payload.length) (by omega) true
  have hlow : (payload.length ||| 128) &&& 127 = payload.length := by
    simpa using b2_low (a := payload.length) (by omega) true
  simp only [decode_hybi, decode_finish, hybi_unmask, hm, b1_and15 hop, b1_fin hop, hlow,
    if_true, reduceIte, List.length_cons, cyclic_xor_length]
  rw [if_neg (by omega), if_neg (by omega), if_neg (by omega)]
  simp only [List.drop_succ_cons, List.drop_zero, List.take_succ_cons, List.take_zero]
  rw [List.take_of_length_le (by simp [cyclic_xor_length]),
    cyclic_xor_involutive]
  simp [Nat.add_comm]
  omega

lemma masked_med (opcode : Nat) (fin : Bool) (payload : List Nat) (k0 k1 k2 k3 : Nat)
    (hop : opcode < 16) (hlo : 125 < payload.length) (hhi : payload.length < 65536) :
    decode_hybi ((opcode ||| (if fin then 128 else 0)) :: (126 ||| 128) ::
      (payload.length / 256 % 256) :: (payload.length % 256) ::
      k0 :: k1 :: k2 :: k3 :: cyclic_xor [k0, k1, k2, k3] 0 payload) =
      some (opcode, payload, payload.length + 8, fin) := by
  have hm : decide (((126 : Nat) ||| 128) &&& 128 ≠ 0) = true := by decide
  have hlow : ((126 : Nat) ||| 128) &&& 127 = 126 := by decide
  have hup : unpack_be [payload.length / 256 % 256, payload.length % 256] = payload.length := by
    simp [unpack_be]
    omega
  simp only [decode_hybi, decode_finish, hybi_unmask, hm, b1_and15 hop, b1_fin hop, hlow,
    if_true, reduceIte, List.length_cons, cyclic_xor_length,
    List.take_succ_cons, List.take_zero, hup]
  rw [if_neg (by omega), if_neg (by omega), if_neg (by omega)]
  simp only [List.drop_succ_cons, List.drop_zero, List.take_succ_cons, List.take_zero]
  rw [List.take_of_length_le (by simp [cyclic_xor_length]), cyclic_xor_involutive]
  simp [Nat.add_comm]

lemma masked_big (opcode : Nat) (fin : Bool) (payload : List Nat) (k0 k1 k2 k3 : Nat)
    (hop : opcode < 16) (hlo : 65535 < payload.length) (hhi : payload.length < 2 ^ 64) :
    decode_hybi ((opcode ||| (if fin then 128 else 0)) :: (127 ||| 128) ::
      (payload.length / 256 ^ 7 % 256) :: (payload.length / 256 ^ 6 % 256) ::
      (payload.length / 256 ^ 5 % 256) :: (payload.length / 256 ^ 4 % 256) ::
      (payload.length / 256 ^ 3 % 256) :: (payload.length / 256 ^ 2 % 256) ::
      (payload.length / 256 % 256) :: (payload.length % 256) ::
      k0 :: k1 :: k2 :: k3 :: cyclic_xor [k0, k1, k2, k3] 0 payload) =
      some (opcode, payload, payload.length + 14, fin) := by
  have hm : decide (((127 : Nat) ||| 128) &&& 128 ≠ 0) = true := by decide
  have hlow : ((127 : Nat) ||| 128) &&& 127 = 127 := by decide
  have hup : unpack_be [payload.length / 256 ^ 7 % 256, payload.length / 256 ^ 6 % 256,
      payload.length / 256 ^ 5 % 256, payload.length / 256 ^ 4 % 256,
      payload.length / 256 ^ 3 % 256, payload.length / 256 ^ 2 % 256,
      payload.length / 256 % 256, payload.length % 256] = payload.length := by
    simp [unpack_be]
    omega
  simp only [decode_hybi, decode_finish, hybi_unmask, hm, b1_and15 hop, b1_fin hop, hlow,
    if_true, reduceIte, List.length_cons, cyclic_xor_length,
    List.take_succ_cons, List.take_zero, hup]
  rw [if_neg (by omega), if_neg (by omega), if_neg (by omega)]
  simp only [List.drop_succ_cons, List.drop_zero, List.take_succ_cons, List.take_zero]
  rw [List.take_of_length_le (by simp [cyclic_xor_length]), cyclic_xor_involutive]
  simp [Nat.add_comm]
  omega

/-- C3: masked encode/decode round-trip.  For every opcode in `0..15`,
payload (length < `2^64`) and 4-byte mask key, the masked frame is the
header with the mask bit set, followed by the 4-byte key, followed by the
payload XORed cyclically with the key; decoding that frame returns the
original unmasked payload (and the consumed length counts the 4 key
bytes). -/
theorem C3_masked_roundtrip (opcode : Nat) (fin : Bool) (payload key : List Nat)
    (hop : opcode < 16) (hkey : key.length = 4) (hL : payload.length < 2 ^ 64) :
    ∃ frame, encode_hybi_frame_masked opcode payload key fin = some frame ∧
      decode_hybi frame =
        some (opcode, payload, payload.length + 4 + hsizeOf payload.length, fin) := by
  have h15 : ¬ (opcode &&& 0x0f ≠ opcode) := by
    have := b1_and15 hop false
    simp at this
    simp [this]
  rcases key with _ | ⟨k0, _ | ⟨k1, _ | ⟨k2, _ | ⟨k3, _ | ⟨k4, tl⟩⟩⟩⟩⟩
  · exfalso; simp at hkey
  · exfalso; simp at hkey
  · exfalso; simp at hkey
  · exfalso; simp at hkey
  · by_cases h1 : payload.length ≤ 125
    · have henc : encode_hybi_header opcode payload.length true fin =
          some [opcode ||| (if fin then 128 else 0), payload.length ||| 128] := by
        simp [encode_hybi_header, h15, h1]
      refine ⟨(opcode ||| (if fin then 128 else 0)) :: (payload.length ||| 128) ::
        k0 :: k1 :: k2 :: k3 :: cyclic_xor [k0, k1, k2, k3] 0 payload, ?_, ?_⟩
      · simp [encode_hybi_frame_masked, henc]
      · rw [show payload.length + 4 + hsizeOf payload.length = payload.length + 6 by
          simp [hsizeOf, h1]]
        exact masked_small opcode fin payload k0 k1 k2 k3 hop h1
    · by_cases h2 : payload.length < 65536
      · have henc : encode_hybi_header opcode payload.length true fin =
            some [opcode ||| (if fin then 128 else 0), 126 ||| 128,
              payload.length / 256 % 256, payload.length % 256] := by
          simp [encode_hybi_header, h15, h1, h2]
        refine ⟨(opcode ||| (if fin then 128 else 0)) :: (126 ||| 128) ::
          (payload.length / 256 % 256) :: (payload.length % 256) ::
          k0 :: k1 :: k2 :: k3 :: cyclic_xor [k0, k1, k2, k3] 0 payload, ?_, ?_⟩
        · simp [encode_hybi_frame_masked, henc]
        · rw [show payload.length + 4 + hsizeOf payload.length = payload.length + 8 by
            simp [hsizeOf, h1, h2]]
          exact masked_med opcode fin payload k0 k1 k2 k3 hop (by omega) h2
      · have henc : encode_hybi_header opcode payload.length true fin =
            some [opcode ||| (if fin then 128 else 0), 127 ||| 128,
              payload.length / 256 ^ 7 % 256, payload.length / 256 ^ 6 % 256,
              payload.length / 256 ^ 5 % 256, payload.length / 256 ^ 4 % 256,
              payload.length / 256 ^ 3 % 256, payload.length / 256 ^ 2 % 256,
              payload.length / 256 % 256, payload.length % 256] := by
          simp [encode_hybi_header, h15, h1, h2]
        refine ⟨(opcode ||| (if fin then 128 else 0)) :: (127 ||| 128) ::
          (payload.length / 256 ^ 7 % 256) :: (payload.length / 256 ^ 6 % 256) ::
          (payload.length / 256 ^ 5 % 256) :: (payload.length / 256 ^ 4 % 256) ::
          (payload.length / 256 ^ 3 % 256) :: (payload.length / 256 ^ 2 % 256) ::
          (payload.length / 256 % 256) :: (payload.length % 256) ::
          k0 :: k1 :: k2 :: k3 :: cyclic_xor [k0, k1, k2, k3] 0 payload, ?_, ?_⟩
        · simp [encode_hybi_frame_masked, henc]
        · rw [show payload.length + 4 + hsizeOf payload.length = payload.length + 14 by
            simp [hsizeOf, h1, h2]]
          exact masked_big opcode fin payload k0 k1 k2 k3 hop (by omega) hL
  · exfalso; simp only [List.length_cons] at hkey; omega

theorem C3_masked_roundtrip_witness :
    (2 : Nat) < 16 ∧ ([1, 2, 3, 4] : List Nat).length = 4 ∧
    ([5, 6, 7] : List Nat).length < 2 ^ 64 ∧
    ∃ frame, encode_hybi_frame_masked 2 [5, 6, 7] [1, 2, 3, 4] true = some frame ∧
      decode_hybi frame =
        some (2, [5, 6, 7], ([5, 6, 7] : List Nat).length + 4 + hsizeOf ([5, 6, 7] : List Nat).length, true) :=
  ⟨by decide, by decide, by decide,
   C3_masked_roundtrip 2 true [5, 6, 7] [1, 2, 3, 4] (by decide) (by decide) (by decide)⟩

/-- C9: encode_hybi_header raises ValueError (returns `none`) exactly when
the opcode has bits outside its low 4 bits; for every valid opcode (and
`payload_len` within the 64-bit domain of `struct.pack`) it returns a
header of exactly 2 bytes when `payload_len ≤ 125`, 4 bytes when
`126 ≤ payload_len ≤ 65535`, and 10 bytes when `payload_len ≥ 65536`,
regardless of the `has_mask` and `fin` flags. -/
theorem C9_encode_header_spec (opcode payload_len : Nat) (has_mask fin : Bool)
    (hL : payload_len < 2 ^ 64) :
    (encode_hybi_header opcode payload_len has_mask fin = none ↔ opcode &&& 0x0f ≠ opcode) ∧
    (∀ hdr, encode_hybi_header opcode payload_len has_mask fin = some hdr →
      (payload_len ≤ 125 → hdr.length = 2) ∧
      (126 ≤ payload_len → payload_len ≤ 65535 → hdr.length = 4) ∧
      (65536 ≤ payload_len → hdr.length = 10)) := by
  constructor
  · by_cases hop : opcode &&& 0x0f ≠ opcode
    · simp [encode_hybi_header, hop]
    · simp only [encode_hybi_header, hop]
      split_ifs <;> simp_all
  · intro hdr h
    by_cases hop : opcode &&& 0x0f ≠ opcode
    · simp [encode_hybi_header, hop] at h
    · by_cases hA : payload_len ≤ 125
      · have hh : [opcode ||| (if fin then 128 else 0),
            payload_len ||| (if has_mask then 128 else 0)] = hdr := by
          simpa [encode_hybi_header, hop, hA] using h
        subst hh
        exact ⟨fun _ => by simp, fun hc _ => by omega, fun hc => by omega⟩
      · by_cases hB : payload_len < 65536
        · have hh : [opcode ||| (if fin then 128 else 0),
              126 ||| (if has_mask then 128 else 0),
              payload_len / 256 % 256, payload_len % 256] = hdr := by
            simpa [encode_hybi_header, hop, hA, hB] using h
          subst hh
          exact ⟨fun hc => by omega, fun _ _ => by simp, fun hc => by omega⟩
        · have hh : [opcode ||| (if fin then 128 else 0),
              127 ||| (if has_mask then 128 else 0),
              payload_len / 256 ^ 7 % 256, payload_len / 256 ^ 6 % 256,
              payload_len / 256 ^ 5 % 256, payload_len / 256 ^ 4 % 256,
              payload_len / 256 ^ 3 % 256, payload_len / 256 ^ 2 % 256,
              payload_len / 256 % 256, payload_len % 256] = hdr := by
            simpa [encode_hybi_header, hop, hA, hB] using h
          subst hh
          exact ⟨fun hc => by omega, fun _ hc => by omega, fun _ => by simp⟩

theorem C9_encode_header_spec_witness :
    (200000 : Nat) < 2 ^ 64 ∧
    ((encode_hybi_header 20 200000 false true = none ↔ (20 : Nat) &&& 0x0f ≠ 20) ∧
     (∀ hdr, encode_hybi_header 20 200000 false true = some hdr →
       ((200000 : Nat) ≤ 125 → hdr.length = 2) ∧
       ((126 : Nat) ≤ 200000 → (200000 : Nat) ≤ 65535 → hdr.length = 4) ∧
       ((65536 : Nat) ≤ 200000 → hdr.length = 10))) :=
  ⟨by decide, C9_encode_header_spec 20 200000 false true (by decide)⟩

/-- C4 counterexample: a packet tagged `signal` is NOT handled by built-in
control logic.  With no whitelist, a live wrapped object and a truthy
`getattr`, `process_packet` looks the method up and schedules it:
`signal` falls through all the special cases of the source. -/
theorem C4_signal_forwarded_counterexample :
    process_packet (α := Nat) none true (fun _ => true) "signal" [] =
      CalleeAction.invokeLater "signal" [] := by
  decide

/-- C4 (amended): for every received packet whose leading tag is `stop`,
`exit`, `connection-lost` or `gibberish`, `SubprocessCallee.process_packet`
handles it with built-in control logic (`net_stop` / `sys.exit`) and never
looks up or invokes a method on the wrapped object, whatever the whitelist,
wrapped object and methods are.  (`signal` is not in this list: the code
forwards it like any application tag; see the counterexample.) -/
theorem C4_reserved_builtin {α : Type} (wl : Option (List String)) (has_obj : Bool)
    (methods : String → Bool) (rest : List α) :
    process_packet wl has_obj methods "connection-lost" rest = CalleeAction.netStop ∧
    process_packet wl has_obj methods "gibberish" rest = CalleeAction.netStop ∧
    process_packet wl has_obj methods "stop" rest = CalleeAction.netStop ∧
    process_packet wl has_obj methods "exit" rest = CalleeAction.exitProcess := by
  refine ⟨?_, ?_, ?_, ?_⟩ <;> simp [process_packet, CONNECTION_LOST, GIBBERISH]

/-- C5: for every non-reserved tag, `process_packet` translates hyphens to
underscores, never stops the connection nor exits (drops are non-fatal),
and schedules the method for asynchronous invocation with the packet's
remaining elements exactly when the translated tag passes the configured
whitelist (if any), the wrapped object is live, and the object has a truthy
matching method. -/
theorem C5_forwarding {α : Type} (wl : Option (List String)) (has_obj : Bool)
    (methods : String → Bool) (command : String) (rest : List α)
    (h : command ∉ ["stop", "exit", "signal", "connection-lost", "gibberish"]) :
    process_packet wl has_obj methods command rest ≠ CalleeAction.netStop ∧
    process_packet wl has_obj methods command rest ≠ CalleeAction.exitProcess ∧
    (process_packet wl has_obj methods command rest =
        CalleeAction.invokeLater (replace_dash command) rest ↔
      (∀ l, wl = some l → replace_dash command ∈ l) ∧
        has_obj = true ∧ methods (replace_dash command) = true) := by
  simp only [List.mem_cons, List.mem_singleton, not_or] at h
  obtain ⟨h1, h2, h3, h4, h5, -⟩ := h
  have hc4 : ¬ (command = CONNECTION_LOST) := by simpa [CONNECTION_LOST] using h4
  have hc5 : ¬ (command = GIBBERISH) := by simpa [GIBBERISH] using h5
  simp only [process_packet, if_neg hc4, if_neg hc5, if_neg h1, if_neg h2]
  rcases wl with _ | l
  · simp only [process_packet_tail]
    cases has_obj <;> cases hm : methods (replace_dash command) <;> simp [hm]
  · by_cases hin : replace_dash command ∈ l
    · simp only [if_pos hin, process_packet_tail]
      cases has_obj <;> cases hm : methods (replace_dash command) <;> simp [hm, hin]
    · simp only [if_neg hin]
      simp [hin]

theorem C5_forwarding_witness :
    ("hello-world" ∉ (["stop", "exit", "signal", "connection-lost", "gibberish"] : List String)) ∧
    (process_packet (some ["hello_world"]) true (fun _ => true) "hello-world" [(7 : Nat)] ≠
        CalleeAction.netStop ∧
      process_packet (some ["hello_world"]) true (fun _ => true) "hello-world" [(7 : Nat)] ≠
        CalleeAction.exitProcess ∧
      (process_packet (some ["hello_world"]) true (fun _ => true) "hello-world" [(7 : Nat)] =
          CalleeAction.invokeLater (replace_dash "hello-world") [(7 : Nat)] ↔
        (∀ l, (some ["hello_world"] : Option (List String)) = some l →
            replace_dash "hello-world" ∈ l) ∧
          (true : Bool) = true ∧ (fun _ : String => true) (replace_dash "hello-world") = true)) :=
  ⟨by decide,
   C5_forwarding (some ["hello_world"]) true (fun _ => true) "hello-world" [(7 : Nat)] (by decide)⟩

/-- C6: two-phase shutdown.  On the first OS termination signal the callee
sends a `signal` packet naming the received signal (`SIGNAMES.get(sig, sig)`),
schedules `cleanup` to run immediately (0 ms) and `stop` after a grace delay
within 100 to 200 ms (the source uses 150 ms), and installs `signal_stop` as
the handler; a second termination signal while stopping calls `stop()`
immediately, with no scheduled delay. -/
theorem C6_two_phase_shutdown (signames : Nat → Option String) (sig1 sig2 : Nat) :
    ∃ d, os_signal_step signames SigHandlerState.firstHandler sig1 =
        ([SigEffect.sendSignalPacket ((signames sig1).getD (toString sig1)),
          SigEffect.timeoutAdd 0 ScheduledCall.cleanupCall,
          SigEffect.timeoutAdd d ScheduledCall.stopCall],
         SigHandlerState.stopping) ∧
      100 ≤ d ∧ d ≤ 200 ∧
      os_signal_step signames SigHandlerState.stopping sig2 =
        ([SigEffect.callStopNow], SigHandlerState.stopping) :=
  ⟨150, rfl, by omega, by omega, rfl⟩

/-- C7 (code bug): the liveness check misses a clean exit.  `abort_test`
raises only when `p is None or p.poll()` is truthy, and a subprocess that
exited with status 0 makes `p.poll()` return `0`, which is falsy: the send
is enqueued silently instead of failing with ConnectionClosed, while any
nonzero exit status (or a missing process) does fail as the spec says.
The exception text "subprocess has terminated" shows the intended condition
is any termination: `p.poll() is not None`. -/
theorem C7_clean_exit_not_detected :
    caller_send (some (some 0)) ([] : List String) "hello" = Except.ok ["hello"] ∧
    caller_send (some (some 1)) ([] : List String) "hello" =
      Except.error "cannot write: subprocess has terminated" ∧
    caller_send (some (some (-15))) ([] : List String) "hello" =
      Except.error "cannot write: subprocess has terminated" ∧
    abort_test (some (some 0)) = false ∧ abort_test none = true :=
  ⟨rfl, rfl, rfl, rfl, rfl⟩

lemma inject_run_getD (rate : Nat) (hr : 0 < rate) (events : List WrapperEvent) :
    ∀ c k, k < events.length →
      (inject_run rate c events).getD k false = decide ((c + k + 1) % rate = 0) := by
  induction events with
  | nil => intro c k hk; simp at hk
  | cons e rest ih =>
    intro c k hk
    match k with
    | 0 => simp [inject_run, INJECT_FAULT, do_inject_fault, hr]
    | (j + 1) =>
      have := ih (c + 1) j (by simpa using Nat.lt_of_succ_lt_succ hk)
      simp only [inject_run, INJECT_FAULT, do_inject_fault, if_pos hr, List.getD_cons_succ]
      rw [this, show c + 1 + j + 1 = c + (j + 1) + 1 by omega]

/-- C8 (amended): when the fault-injection rate is unset or 0, INJECT_FAULT
is a no-op for every call; when the rate is `N > 0`, the corruption fires on
exactly every `N`-th call of INJECT_FAULT, where calls are counted across
both outbound sends and processed incoming packets (both `send()` and
`process_packet()` invoke it on the shared module counter).  Corruptions
land on sends numbered `N, 2N, ...` only in runs where every call comes
from a send; see the counterexample. -/
theorem C8_inject_fault_amended (rate : Nat) (events : List WrapperEvent) :
    (rate = 0 → inject_run rate 0 events = events.map fun _ => false) ∧
    (0 < rate → ∀ k, k < events.length →
      (inject_run rate 0 events).getD k false = decide ((k + 1) % rate = 0)) := by
  constructor
  · rintro rfl
    induction events with
    | nil => rfl
    | cons e rest ih => simpa [inject_run, INJECT_FAULT] using ih
  · intro hr k hk
    simpa using inject_run_getD rate hr events 0 k hk

theorem C8_inject_fault_amended_witness :
    inject_run 0 0 [WrapperEvent.sendPacket] = [false] ∧
    (inject_run 3 0 [WrapperEvent.sendPacket, WrapperEvent.sendPacket,
        WrapperEvent.sendPacket]).getD 2 false = decide ((2 + 1) % 3 = 0) :=
  ⟨(C8_inject_fault_amended 0 [WrapperEvent.sendPacket]).1 rfl,
   (C8_inject_fault_amended 3 [WrapperEvent.sendPacket, WrapperEvent.sendPacket,
      WrapperEvent.sendPacket]).2 (by decide) 2 (by decide)⟩

/-- C8 counterexample: with rate 2, a processed incoming packet followed by
the first outbound send makes that first send (send number 1, not a
multiple of 2) fire the corruption, because `process_packet` advanced the
shared counter: corruptions are not exactly the sends numbered `N, 2N, ...`. -/
theorem C8_nth_send_counterexample :
    inject_run 2 0 [WrapperEvent.processPacket, WrapperEvent.sendPacket] = [false, true] := by
  decide

/-- C10: `get_packet` (identical in `SubprocessCallee` and
`SubprocessCaller`) never blocks (it is a total function of the queue):
on an empty queue it returns `(none, false, false)`; otherwise it removes
and returns the oldest enqueued packet, the must-start-new-frame component
is always `false`, and the have-more component is `true` iff further
packets remain after the removal. -/
theorem C10_get_packet {α : Type} (q : List α) :
    get_packet q = ((q.head?, false, decide (1 < q.length)), q.tail) := by
  cases q with
  | nil => rfl
  | cons x rest =>
    simp only [get_packet, List.head?_cons, List.tail_cons, List.length_cons, Prod.mk.injEq]
    refine ⟨⟨trivial, trivial, ?_⟩, trivial⟩
    rw [decide_eq_decide]
    omega

end Xpra
